import Mathlib

/-!
# Verification of the `DownloadTracker` progress ledger

A shallow embedding of `src/mangadex_downloader/tracker.py`: the entity
model (`_ImageInfo`, `_ChapterInfo`, `_FileInfo`), the in-memory ledger
operations of `DownloadTracker`, and its load/validation logic
(`_load` / `_check_data`), together with theorems settling the frozen
claims about that code.

Modelling conventions:
* Python `None` becomes `Option.none`; a JSON field that may be absent is
  wrapped in a further `Option` (`none` = the key is missing, raising
  `KeyError` on access).
* Python exceptions (`KeyError`, `AttributeError`, `TypeError`, the
  page-parse `Exception`) are modelled by returning `none` from an
  `Option`-valued function: the operation aborts and, in particular,
  performs no disk write (every `self._write`/`_write_new` call in the
  source is sequenced after the point of the modelled failure).
* Disk state is tracked as the list of file-system effects the code
  issues (synchronous writes, deletions, and writes submitted to the
  queue worker), plus a flag recording whether the queue worker was
  started.  `TPath.dirPath` is `self.path` (the manga directory) and
  `TPath.filePath` is `self.file` (`downloaded-<format>.json`).
* The fixed `comment` strings of the ledger root are a constant in the
  source (`DownloadTracker._comment`), so the root is represented by its
  `files` sequence alone; `MemData.root` is the well-formed
  `{comment, files}` mapping, while `MemData.emptyDict` is the initial
  `self.data = {}` and `MemData.falseData` the boolean `False` that
  `_check_data` returns for a document without a `files` key.
-/

/-- `_ImageInfo`: `name`, `hash`, `chapter_id`; `__eq__` compares the three
fields, which is exactly structural equality. -/
structure ImageInfo where
  name : String
  hash : String
  chapter_id : String
deriving DecidableEq, Repr

/-- `_ChapterInfo`: `name`, `id`; `__eq__` against another `_ChapterInfo`
is structural, and against a bare string compares `id` with it. -/
structure ChapterInfo where
  name : String
  id : String
deriving DecidableEq, Repr

/-- `_FileInfo`: the tracked unit.  `images`/`chapters` are `None` for
formats that do not use them.  `__eq__` compares the `data` dicts, i.e.
all six fields structurally. -/
structure FileInfo where
  name : String
  id : Option String
  hash : Option String
  completed : Bool
  images : Option (List ImageInfo)
  chapters : Option (List ChapterInfo)
deriving DecidableEq, Repr

/-- `DownloadTracker.get`: `file_info = None; for fi in filter(lambda x:
x.name == name, files): file_info = fi; return file_info` — a left fold
that keeps the most recent match. -/
def getFI (name : String) (files : List FileInfo) : Option FileInfo :=
  files.foldl (fun acc fi => if fi.name == name then some fi else acc) none

/-! ## `remove_file_info_from_name`

The source iterates a `filter` over the live `files` list and calls
`files.remove(fi)` inside the loop.  CPython's list iterator keeps a bare
index into the (mutating) list, so the loop is: at index `idx`, if
`idx >= len(files)` stop; otherwise inspect `files[idx]`; when its name
matches, `files.remove(fi)` deletes the first element structurally equal
to it; either way the index advances by one.  The recursion is driven by
an explicit step counter: each step either ends the loop or strictly
decreases `files.length - idx` (a removal shrinks the list by one while
the index advances), so a budget of `files.length` steps never truncates
the loop. -/

def removeLoop (name : String) : Nat → List FileInfo → Nat → List FileInfo
  | 0, files, _ => files
  | fuel + 1, files, idx =>
    if h : idx < files.length then
      let x := files[idx]
      if x.name == name then
        removeLoop name fuel (files.erase x) (idx + 1)
      else
        removeLoop name fuel files (idx + 1)
    else
      files

/-- `DownloadTracker.remove_file_info_from_name(name)`. -/
def removeByName (name : String) (files : List FileInfo) : List FileInfo :=
  removeLoop name files.length files 0

/-! ## Raw document entries and `_FileInfo` construction

A raw entry is a parsed JSON mapping; an outer `none` marks an absent key
(accessing it raises `KeyError`, the only failure `_check_data` catches).
The inner value carries the type the tracker itself stores and
round-trips; mistyped JSON values are outside the scope of the claims
(the source's own TODO notes that no extra per-field checking is done). -/

structure RawImage where
  name : Option String
  hash : Option String
  chapter_id : Option String
deriving DecidableEq, Repr

structure RawChapter where
  name : Option String
  id : Option String
deriving DecidableEq, Repr

structure RawFile where
  name : Option String
  id : Option (Option String)
  hash : Option (Option String)
  completed : Option Bool
  images : Option (Option (List RawImage))
  chapters : Option (Option (List RawChapter))
deriving DecidableEq, Repr

/-- `_ImageInfo.__init__`: reads `name`, `hash`, `chapter_id`; a missing
key raises `KeyError` (`none`). -/
def parseImageInfo (r : RawImage) : Option ImageInfo := do
  let n ← r.name
  let h ← r.hash
  let c ← r.chapter_id
  some ⟨n, h, c⟩

/-- `_ChapterInfo.__init__`: reads `name` and `id`. -/
def parseChapterInfo (r : RawChapter) : Option ChapterInfo := do
  let n ← r.name
  let i ← r.id
  some ⟨n, i⟩

/-- The list comprehension `[_ImageInfo(i) for i in data["images"]]`:
stops at the first entry that raises. -/
def parseImages : List RawImage → Option (List ImageInfo)
  | [] => some []
  | r :: rs => do
    let i ← parseImageInfo r
    let is ← parseImages rs
    some (i :: is)

def parseChapters : List RawChapter → Option (List ChapterInfo)
  | [] => some []
  | r :: rs => do
    let c ← parseChapterInfo r
    let cs ← parseChapters rs
    some (c :: cs)

/-- `_FileInfo.__init__`: reads `name`, `id`, `hash`, `completed`,
`images`, `chapters`; builds the nested records when the sequences are
non-null.  Any missing key (also inside a nested record) raises
`KeyError` (`none`). -/
def parseFileInfo (r : RawFile) : Option FileInfo := do
  let n ← r.name
  let i ← r.id
  let h ← r.hash
  let comp ← r.completed
  let rawImgs ← r.images
  let imgs ← match rawImgs with
    | none => some none
    | some l => (parseImages l).map some
  let rawChs ← r.chapters
  let chs ← match rawChs with
    | none => some none
    | some l => (parseChapters l).map some
  some ⟨n, i, h, comp, imgs, chs⟩

/-- `parseFiles` is the entry-by-entry construction without the duplicate
check: the reference point for order/duplication statements about the
validation loop. -/
def parseFiles : List RawFile → Option (List FileInfo)
  | [] => some []
  | r :: rs => do
    let fi ← parseFileInfo r
    let fis ← parseFiles rs
    some (fi :: fis)

/-- The `for index, file in enumerate(files)` loop of
`DownloadTracker._check_data`, with `acc` playing `new_files`: a raw
entry that fails to construct aborts the whole pass (`none`, the
recreate-everything branch); an entry equal (`_FileInfo.__eq__`, full
structural equality) to one already in `new_files` is skipped; all others
are appended. -/
def checkFilesLoop : List RawFile → List FileInfo → Option (List FileInfo)
  | [], acc => some acc
  | r :: rs, acc =>
    match parseFileInfo r with
    | none => none
    | some fi =>
      if fi ∈ acc then checkFilesLoop rs acc
      else checkFilesLoop rs (acc ++ [fi])

/-- A parsed backing document: either it has a `files` key with a list of
raw entries, or it lacks the key (`KeyError` branch of `_check_data`). -/
structure RawRoot where
  files : Option (List RawFile)
deriving DecidableEq, Repr

/-- The two paths the tracker touches: `self.path` (the directory handed
to `__init__`) and `self.file` (`self.path / "downloaded-<format>.json"`). -/
inductive TPath where
  | dirPath
  | filePath
deriving DecidableEq, Repr

/-- File-system effects issued by the tracker: a synchronous write of the
empty skeleton (`_write_new`), an idempotent `delete_file`, and a
serialization job submitted to the queue worker (`_write`). -/
inductive FsEvent where
  | wrote (p : TPath)
  | deleted (p : TPath)
  | scheduledWrite
deriving DecidableEq, Repr

/-- The value of `self.data`: `emptyDict` is the `{}` assigned in
`__init__`, `falseData` the `False` returned by `_check_data` for a
document without a `files` key, and `root fs` a well-formed
`{"comment": _comment, "files": fs}` mapping. -/
inductive MemData where
  | emptyDict
  | falseData
  | root (files : List FileInfo)
deriving DecidableEq, Repr

/-- `self.data["files"]`: succeeds only on a well-formed root. -/
def memFiles : MemData → Option (List FileInfo)
  | .root fs => some fs
  | _ => none

/-- Is `self.data` a well-formed ledger root? -/
def MemData.isWellFormedRoot : MemData → Bool
  | .root _ => true
  | _ => false

/-- `DownloadTracker._check_data` on a parsed document, paired with the
file-system effects it issues.  The `KeyError` branch for a missing
`files` key returns `False`; a malformed entry logs, calls
`delete_file(self.path)` — the directory, not the backing file — and
returns the freshly written empty skeleton (`_write_new` writes
`self.file`); otherwise the deduplicated entry list replaces
`data["files"]`. -/
def checkData (r : RawRoot) : MemData × List FsEvent :=
  match r.files with
  | none => (.falseData, [])
  | some raws =>
    match checkFilesLoop raws [] with
    | none => (.root [], [.deleted .dirPath, .wrote .filePath])
    | some out => (.root out, [])

/-- What the loader finds on disk: no file, a file whose content fails to
parse as JSON, or a parsed document. -/
inductive DiskContent where
  | absent
  | unparsable
  | parsed (r : RawRoot)
deriving DecidableEq, Repr

/-- `DownloadTracker._load`, as a function of the previous `self.data`
(`{}` right after `__init__`) and the backing file's content, returning
the new `self.data` and the file-system effects issued:
* missing file: `_write_new` writes the skeleton and becomes `self.data`;
* unparsable content: `_write_new()` is called (writing the skeleton to
  disk) but its result is not assigned, so `self.data` keeps its previous
  value;
* parsed content: `_check_data`'s result — whatever it is, including the
  `False` of the missing-`files` branch — is handed to `_write` (an async
  job) and assigned to `self.data`. -/
def loadData (prev : MemData) (c : DiskContent) : MemData × List FsEvent :=
  match c with
  | .absent => (.root [], [.wrote .filePath])
  | .unparsable => (prev, [.wrote .filePath])
  | .parsed r =>
    let res := checkData r
    (res.1, res.2 ++ [.scheduledWrite])

/-- First-occurrence filtering by full structural equality, written from
the amended claim's wording: keep an entry iff no structurally equal
entry occurred earlier. -/
def firstOccurrences (l : List FileInfo) : List FileInfo :=
  l.foldl (fun acc x => if x ∈ acc then acc else acc ++ [x]) []

/-- Concrete validation input for the C1 witness: a full-equality
duplicate of `"A"` followed by a distinct `"B"` entry. -/
def c1Raws : List RawFile :=
  [⟨some "A", some none, some none, some false, some none, some none⟩,
   ⟨some "A", some none, some none, some false, some none, some none⟩,
   ⟨some "B", some none, some none, some false, some none, some none⟩]

def c1Out : List FileInfo :=
  [⟨"A", none, none, false, none, none⟩, ⟨"B", none, none, false, none, none⟩]

def c1Parsed : List FileInfo :=
  [⟨"A", none, none, false, none, none⟩, ⟨"A", none, none, false, none, none⟩,
   ⟨"B", none, none, false, none, none⟩]

/-- Concrete validation input for the C9 witness: a later duplicate of
`"X"` around a distinct `"Y"` entry. -/
def c9Raws : List RawFile :=
  [⟨some "X", some none, some none, some false, some none, some none⟩,
   ⟨some "Y", some none, some none, some true, some none, some none⟩,
   ⟨some "X", some none, some none, some false, some none, some none⟩]

def c9Out : List FileInfo :=
  [⟨"X", none, none, false, none, none⟩, ⟨"Y", none, none, true, none, none⟩]

def c9Parsed : List FileInfo :=
  [⟨"X", none, none, false, none, none⟩, ⟨"Y", none, none, true, none, none⟩,
   ⟨"X", none, none, false, none, none⟩]

/-! ## Image page numbers and `add_image_info`

`get_page_image` runs `re.search` with pattern `[0-9]{1,}\..{1,}` over
the image filename: the leftmost position where a (maximal) digit run is
followed by a literal dot and at least one further character (`.` in the
pattern does not match a newline); the digit run converts to the page
number.  Shrinking the greedy digit run cannot help the `\.` that
follows (the next character would be a digit), so a position matches
exactly when the maximal run from it is followed by `.` and one more
non-newline character, and the scan otherwise advances one character —
which is the recursion below. -/

def digitsToNat (l : List Char) : Nat :=
  l.foldl (fun n c => n * 10 + (c.toNat - 48)) 0

def pageSearch : List Char → Option Nat
  | [] => none
  | c :: rest =>
    if c.isDigit then
      match (c :: rest).dropWhile Char.isDigit with
      | '.' :: e :: _ =>
        if e = '\n' then pageSearch rest
        else some (digitsToNat ((c :: rest).takeWhile Char.isDigit))
      | _ => pageSearch rest
    else
      pageSearch rest

/-- The sort key order used by `sorted(file_info.images, key=get_page_image)`
on the precomputed (page, image) pairs. -/
def pageOrder (p q : Nat × ImageInfo) : Prop :=
  p.1 ≤ q.1

instance : DecidableRel pageOrder := fun p q => Nat.decLe p.1 q.1

instance : IsTotal (Nat × ImageInfo) pageOrder :=
  ⟨fun p q => Nat.le_total p.1 q.1⟩

instance : IsTrans (Nat × ImageInfo) pageOrder :=
  ⟨fun _ _ _ => Nat.le_trans⟩

/-- CPython's `sorted` first materialises the key of every element in
list order, raising on the first failure. -/
def mapKeys : List ImageInfo → Option (List (Nat × ImageInfo))
  | [] => some []
  | x :: xs =>
    match pageSearch x.name.data with
    | none => none
    | some p => (mapKeys xs).map (fun ps => (p, x) :: ps)

/-- The effect of `add_image_info` on a non-null image sequence:
`images.remove(im)` deletes the first structurally equal entry if any
(`ValueError` is swallowed), the new record is appended, and the result
is stably sorted ascending by page number.  CPython's sort is stable, and
a stable ascending reorder of a list is unique, so Mathlib's (stable)
`insertionSort` over the keyed pairs computes exactly `sorted`'s output;
`none` is the page-extraction failure raised while sorting. -/
def imagesAfterAdd (l : List ImageInfo) (im : ImageInfo) : Option (List ImageInfo) :=
  match mapKeys (l.erase im ++ [im]) with
  | none => none
  | some keyed => some ((List.insertionSort pageOrder keyed).map Prod.snd)

/-- Python mutates the `_FileInfo` object returned by `get`, i.e. the
last record whose name matches; the update therefore lands on the last
match.  `none` when there is no match (`get` returned `None` and the
attribute access raises) or when `g` itself fails. -/
def updateLast (name : String) (g : FileInfo → Option FileInfo) :
    List FileInfo → Option (List FileInfo)
  | [] => none
  | f :: fs =>
    if fs.any (fun x => x.name == name) then
      (updateLast name g fs).map (f :: ·)
    else if f.name == name then
      (g f).map (· :: fs)
    else
      none

/-- `DownloadTracker.add_image_info(name, img_name, hash, chap_id)` on the
in-memory files sequence. -/
def addImageList (name imgName hash chapId : String) (files : List FileInfo) :
    Option (List FileInfo) :=
  updateLast name (fun f =>
    (f.images).bind (fun l =>
      (imagesAfterAdd l ⟨imgName, hash, chapId⟩).map (fun l2 =>
        { f with images := some l2 }))) files

/-- `DownloadTracker.add_chapter_info(name, chapter_name, chapter_id)` on
the in-memory files sequence: `chapter_id in file_info.chapters` compares
each `_ChapterInfo` against the bare id string, i.e. membership by `id`;
when present the call returns without touching anything, otherwise a new
record is appended. -/
def appendChapter (chName chId : String) (f : FileInfo) : Option FileInfo :=
  (f.chapters).map (fun cs =>
    { f with chapters := some (cs ++ [ChapterInfo.mk chName chId]) })

def addChapterList (name chName chId : String) (files : List FileInfo) :
    Option (List FileInfo) :=
  (getFI name files).bind (fun fi =>
    (fi.chapters).bind (fun chs =>
      if chs.any (fun c => c.id == chId) then some files
      else updateLast name (appendChapter chName chId) files))

/-! ## Tracker state and operations -/

/-- The observable state of a `DownloadTracker`: the disabled flag
(`config.no_track`), whether the queue worker was started, `self.data`,
and the file-system effects issued so far. -/
structure TrackerState where
  disabled : Bool
  workerStarted : Bool
  mem : MemData
  fsEvents : List FsEvent
deriving DecidableEq, Repr

/-- `DownloadTracker.__init__`: with `no_track` set, `self.data` becomes
the skeleton `_write_new` returns — without writing, since `_write_new`
checks `disabled` — and the queue worker is never started; otherwise the
worker starts and `_load` runs against the backing file's content. -/
def initTracker (noTrack : Bool) (disk : DiskContent) : TrackerState :=
  if noTrack then
    { disabled := true, workerStarted := false, mem := .root [], fsEvents := [] }
  else
    let res := loadData .emptyDict disk
    { disabled := false, workerStarted := true, mem := res.1, fsEvents := res.2 }

/-- `DownloadTracker._write`: a no-op when disabled, otherwise a
serialization job is submitted to the queue worker. -/
def scheduleWrite (s : TrackerState) : List FsEvent :=
  if s.disabled then s.fsEvents else s.fsEvents ++ [.scheduledWrite]

/-- The public mutating/lifecycle operations of the ledger. -/
inductive Op where
  | addFile (name : String) (id hash : Option String) (nullImages nullChapters : Bool)
  | addImage (name imgName hash chapId : String)
  | addChapter (name chName chId : String)
  | setCompleted (name : String) (complete : Bool)
  | recreate
  | shutdown
deriving DecidableEq, Repr

/-- One operation of `DownloadTracker`, as a transition on the observable
state; `none` models an escaping Python exception (contract violations
such as mutating an absent name).  Mutations touch `self.data` first and
call `self._write` last, so a failing operation issues no effect. -/
def exec (op : Op) (s : TrackerState) : Option TrackerState :=
  match op with
  | .addFile n i h ni nc =>
    (memFiles s.mem).map (fun files =>
      { s with
        mem := .root (files ++
          [⟨n, i, h, false, if ni then none else some [], if nc then none else some []⟩]),
        fsEvents := scheduleWrite s })
  | .addImage n imn h cid =>
    (memFiles s.mem).bind (fun files =>
      (addImageList n imn h cid files).map (fun files2 =>
        { s with mem := .root files2, fsEvents := scheduleWrite s }))
  | .addChapter n cn cid =>
    (memFiles s.mem).bind (fun files =>
      (getFI n files).bind (fun fi =>
        (fi.chapters).bind (fun chs =>
          if chs.any (fun c => c.id == cid) then some s
          else
            (updateLast n (appendChapter cn cid) files).map (fun files2 =>
              { s with mem := .root files2, fsEvents := scheduleWrite s }))))
  | .setCompleted n b =>
    (memFiles s.mem).bind (fun files =>
      (updateLast n (fun f => some { f with completed := b }) files).map (fun files2 =>
        { s with mem := .root files2, fsEvents := scheduleWrite s }))
  | .recreate =>
    if s.disabled then some s
    else some { s with mem := .root [],
                       fsEvents := s.fsEvents ++ [.deleted .filePath, .wrote .filePath] }
  | .shutdown =>
    if s.disabled then some s else some { s with workerStarted := false }

def execAll : List Op → TrackerState → Option TrackerState
  | [], s => some s
  | op :: ops, s =>
    match exec op s with
    | none => none
    | some s2 => execAll ops s2

/-- `DownloadTracker.get` on the tracker state (`none` = the `files`
lookup itself raises on a malformed `self.data`). -/
def trackerGet (s : TrackerState) (n : String) : Option (Option FileInfo) :=
  (memFiles s.mem).map (getFI n)

/-- `DownloadTracker.empty` on the tracker state. -/
def trackerEmpty (s : TrackerState) : Option Bool :=
  (memFiles s.mem).map (fun fs => fs.isEmpty)

/-- The C5 scenario: `addFile("Ch.1", id="abc", hash=null, nullImages=false,
nullChapters=true)` followed by two `addImage` calls, on an enabled
tracker starting from a missing backing file. -/
def c5Ops : List Op :=
  [.addFile "Ch.1" (some "abc") none false true,
   .addImage "Ch.1" "1.png" "h1" "abc",
   .addImage "Ch.1" "2.png" "h2" "abc"]

/-- `get("Ch.1")` after running `ops` from an enabled tracker on a missing
backing file. -/
def runGetCh1 (ops : List Op) : Option FileInfo :=
  (execAll ops (initTracker false .absent)).bind
    (fun s => (memFiles s.mem).bind (getFI "Ch.1"))

def c5File : FileInfo :=
  ⟨"Ch.1", some "abc", none, false,
   some [⟨"1.png", "h1", "abc"⟩, ⟨"2.png", "h2", "abc"⟩], none⟩

/-- Concrete input for the C5 witness: adding `1.png` to a sequence
already holding `2.png`. -/
def c5L : List ImageInfo := [⟨"2.png", "h2", "abc"⟩]

def c5Im : ImageInfo := ⟨"1.png", "h1", "abc"⟩

def c5Out : List ImageInfo := [⟨"1.png", "h1", "abc"⟩, ⟨"2.png", "h2", "abc"⟩]

/-- Concrete ledger for the C7 witness: one volume record already holding
chapter id `"id1"`. -/
def c7Files : List FileInfo :=
  [⟨"Vol. 1", none, some "hsh", false, none, some [⟨"Ch. 1", "id1"⟩]⟩]

def c7Fi : FileInfo :=
  ⟨"Vol. 1", none, some "hsh", false, none, some [⟨"Ch. 1", "id1"⟩]⟩

/-- Operation sequence for the C8 witness. -/
def c8Ops : List Op :=
  [.addFile "A" none none true true, .setCompleted "A" true, .recreate, .shutdown]

def c8Final : TrackerState :=
  ⟨true, false, .root [⟨"A", none, none, true, none, none⟩], []⟩

/-- Tracker for the C10 witness: disabled, with one record already added. -/
def c10State : TrackerState :=
  ⟨true, false, .root [⟨"A", some "id1", none, false, none, none⟩], []⟩

/-! ## Theorems -/

/-- Unfolding lemma for `getFI`'s fold: the accumulator only survives when
no later element matches. -/
theorem getFI_foldl (name : String) (files : List FileInfo) (acc : Option FileInfo) :
    files.foldl (fun acc fi => if fi.name == name then some fi else acc) acc =
      (getFI name files).or acc := by
  induction files generalizing acc with
  | nil => rfl
  | cons f fs ih =>
    have hL : (f :: fs).foldl (fun acc fi => if fi.name == name then some fi else acc) acc =
        fs.foldl (fun acc fi => if fi.name == name then some fi else acc)
          (if f.name == name then some f else acc) := rfl
    have hg : getFI name (f :: fs) =
        (getFI name fs).or (if f.name == name then some f else none) := by
      show fs.foldl _ (if f.name == name then some f else none) = _
      exact ih _
    rw [hL, ih, hg]
    cases hfs : getFI name fs <;> cases hf : (f.name == name) <;>
      simp [Option.or]

theorem getFI_cons (name : String) (f : FileInfo) (fs : List FileInfo) :
    getFI name (f :: fs) =
      (getFI name fs).or (if f.name == name then some f else none) := by
  show fs.foldl _ (if f.name == name then some f else none) = _
  exact getFI_foldl name fs _

/-- `getFI` is the first match in the reversed list. -/
theorem getFI_eq_reverse_find (name : String) (files : List FileInfo) :
    getFI name files = files.reverse.find? (fun fi => fi.name == name) := by
  induction files with
  | nil => rfl
  | cons f fs ih =>
    rw [getFI_cons, ih]
    simp only [List.reverse_cons, List.find?_append]
    cases hf : (fs.reverse.find? fun fi => fi.name == name) <;>
      cases hn : (f.name == name) <;> simp [Option.or, List.find?, hn, hf]

/-- C6: `get(name)` returns the last record in the files sequence whose
`name` equals the given name (the first match of the reversed sequence),
and returns `none` exactly when no record carries that name. -/
theorem get_returns_last_match (name : String) (files : List FileInfo) :
    getFI name files = files.reverse.find? (fun fi => fi.name == name) ∧
      (getFI name files = none ↔ ∀ fi ∈ files, fi.name ≠ name) := by
  refine ⟨getFI_eq_reverse_find name files, ?_⟩
  rw [getFI_eq_reverse_find]
  rw [List.find?_eq_none]
  constructor
  · intro h fi hfi hname
    exact absurd (by simpa using hname) (by simpa using h fi (List.mem_reverse.mpr hfi))
  · intro h fi hfi
    simpa using h fi (List.mem_reverse.mp hfi)

/-- The step budget is irrelevant as soon as it covers the loop measure
`files.length - idx`, which justifies running the loop on a budget of
`files.length`. -/
theorem removeLoop_fuel_eq (name : String) :
    ∀ n m files idx, files.length - idx ≤ n → files.length - idx ≤ m →
      removeLoop name n files idx = removeLoop name m files idx := by
  intro n
  induction n with
  | zero =>
    intro m files idx hn _
    cases m with
    | zero => rfl
    | succ m =>
      have hidx : ¬ idx < files.length := by omega
      simp [removeLoop, hidx]
  | succ n ih =>
    intro m files idx hn hm
    cases m with
    | zero =>
      have hidx : ¬ idx < files.length := by omega
      simp [removeLoop, hidx]
    | succ m =>
      by_cases hidx : idx < files.length
      · have hmem : files[idx] ∈ files := List.getElem_mem hidx
        have herase : (files.erase files[idx]).length = files.length - 1 :=
          List.length_erase_of_mem hmem
        simp only [removeLoop, dif_pos hidx]
        by_cases hname : files[idx].name == name
        · simp only [if_pos hname]
          exact ih m _ _ (by omega) (by omega)
        · simp only [if_neg hname]
          exact ih m _ _ (by omega) (by omega)
      · simp [removeLoop, hidx]

/-- C2 (code behaviour at the failing input): on a ledger holding two
consecutive identical records named `"X"`, `remove_file_info_from_name("X")`
leaves the second record in place — the list is mutated while the filter
iterator walks it by index, so after the first removal the iterator skips
over the shifted duplicate.  A record named `"X"` therefore survives,
contradicting the claim that all matching records are removed. -/
theorem removeByName_leaves_consecutive_duplicate :
    removeByName "X" [⟨"X", none, none, false, none, none⟩,
                      ⟨"X", none, none, false, none, none⟩] =
      [⟨"X", none, none, false, none, none⟩] ∧
    (getFI "X" (removeByName "X" [⟨"X", none, none, false, none, none⟩,
                                  ⟨"X", none, none, false, none, none⟩])).isSome = true := by
  constructor <;> rfl

/-- C3 (code behaviour at the failing inputs): after `_load` on a file
whose content fails to parse, `self.data` is still the `{}` from
`__init__` — `_write_new()`'s result is discarded — and after `_load` on
a parsed document lacking a `files` key, `self.data` is the boolean
`False` returned by `_check_data`.  Neither is a well-formed root, so the
in-memory ledger is not reset to the empty skeleton as the claim states. -/
theorem load_failure_leaves_malformed_memory :
    (loadData .emptyDict .unparsable).1 = .emptyDict ∧
    (loadData .emptyDict (.parsed ⟨none⟩)).1 = .falseData ∧
    (loadData .emptyDict .unparsable).1.isWellFormedRoot = false ∧
    (loadData .emptyDict (.parsed ⟨none⟩)).1.isWellFormedRoot = false := by
  refine ⟨rfl, rfl, rfl, rfl⟩

/-- C4 (code behaviour at the failing input): a parsed document holding a
well-formed entry followed by an entry missing its `id` key makes
`_check_data` recreate the whole ledger: the in-memory files sequence
ends up empty even though one entry was well-formed, and the recovery
path first deletes `self.path` — the manga directory handed to
`__init__` — rather than the backing file `self.file`, then writes a
fresh skeleton to `self.file`. -/
theorem checkData_bad_record_recreates_empty_but_deletes_dir :
    loadData .emptyDict (.parsed ⟨some
        [⟨some "Ch. 1", some (some "abc"), some none, some false, some none, some none⟩,
         ⟨some "Ch. 2", none, some none, some false, some none, some none⟩]⟩) =
      (.root [], [.deleted .dirPath, .wrote .filePath, .scheduledWrite]) ∧
    TPath.dirPath ≠ TPath.filePath := by
  exact ⟨rfl, by decide⟩

/-- C1 (counterexample): two raw entries that share the name `"A"` but
differ in `id` both survive `_check_data` — the duplicate check is
`fi in new_files`, i.e. `_FileInfo.__eq__`, full structural equality, not
equality of names — so after validation two records share a `name`. -/
theorem checkData_keeps_same_name_pair :
    checkData ⟨some
        [⟨some "A", some (some "1"), some none, some false, some none, some none⟩,
         ⟨some "A", some (some "2"), some none, some false, some none, some none⟩]⟩ =
      (.root [⟨"A", some "1", none, false, none, none⟩,
              ⟨"A", some "2", none, false, none, none⟩], []) ∧
    (FileInfo.mk "A" (some "1") none false none none).name =
      (FileInfo.mk "A" (some "2") none false none none).name ∧
    FileInfo.mk "A" (some "1") none false none none ≠
      FileInfo.mk "A" (some "2") none false none none := by
  exact ⟨rfl, rfl, by decide⟩

theorem checkFilesLoop_eq_foldl :
    ∀ (raws : List RawFile) (acc out : List FileInfo),
      checkFilesLoop raws acc = some out →
      ∃ parsed, parseFiles raws = some parsed ∧
        out = parsed.foldl (fun acc x => if x ∈ acc then acc else acc ++ [x]) acc := by
  intro raws
  induction raws with
  | nil =>
    intro acc out h
    simp only [checkFilesLoop, Option.some_inj] at h
    subst h
    exact ⟨[], rfl, rfl⟩
  | cons r rs ih =>
    intro acc out h
    cases hp : parseFileInfo r with
    | none => simp [checkFilesLoop, hp] at h
    | some fi =>
      simp only [checkFilesLoop, hp] at h
      by_cases hmem : fi ∈ acc
      · rw [if_pos hmem] at h
        obtain ⟨parsed, hparsed, hout⟩ := ih acc out h
        refine ⟨fi :: parsed, ?_, ?_⟩
        · simp [parseFiles, hp, hparsed]
        · simpa [hmem] using hout
      · rw [if_neg hmem] at h
        obtain ⟨parsed, hparsed, hout⟩ := ih (acc ++ [fi]) out h
        refine ⟨fi :: parsed, ?_, ?_⟩
        · simp [parseFiles, hp, hparsed]
        · simpa [hmem] using hout

theorem foldl_firstOccurrences_nodup :
    ∀ (l acc : List FileInfo), acc.Nodup →
      (l.foldl (fun acc x => if x ∈ acc then acc else acc ++ [x]) acc).Nodup := by
  intro l
  induction l with
  | nil => intro acc h; exact h
  | cons x xs ih =>
    intro acc h
    show (xs.foldl _ (if x ∈ acc then acc else acc ++ [x])).Nodup
    by_cases hmem : x ∈ acc
    · rw [if_pos hmem]; exact ih acc h
    · rw [if_neg hmem]
      refine ih _ ?_
      simp [List.nodup_append, h, hmem]

/-- C1 (amended): the validation pass drops a raw entry exactly when its
constructed record is structurally equal (`_FileInfo.__eq__` on all
fields) to one kept earlier — first occurrence wins — so afterwards no
two kept records are structurally equal; records merely sharing a `name`
are all kept. -/
theorem checkData_dedups_by_structural_equality
    (raws : List RawFile) (out parsed : List FileInfo)
    (hloop : checkFilesLoop raws [] = some out)
    (hparse : parseFiles raws = some parsed) :
    out = firstOccurrences parsed ∧ out.Nodup := by
  obtain ⟨parsed2, hparsed2, hout⟩ := checkFilesLoop_eq_foldl raws [] out hloop
  rw [hparse] at hparsed2
  cases hparsed2
  refine ⟨hout, ?_⟩
  rw [hout]
  exact foldl_firstOccurrences_nodup parsed [] List.nodup_nil

theorem checkData_dedups_by_structural_equality_witness :
    checkFilesLoop c1Raws [] = some c1Out ∧
    parseFiles c1Raws = some c1Parsed ∧
    c1Out = firstOccurrences c1Parsed ∧ c1Out.Nodup := by
  refine ⟨by decide, by decide, ?_⟩
  exact checkData_dedups_by_structural_equality c1Raws c1Out c1Parsed (by decide) (by decide)

theorem checkFilesLoop_sublist_aux :
    ∀ (raws : List RawFile) (acc out : List FileInfo),
      checkFilesLoop raws acc = some out →
      ∀ parsed, parseFiles raws = some parsed →
        ∃ extra, out = acc ++ extra ∧ extra.Sublist parsed := by
  intro raws
  induction raws with
  | nil =>
    intro acc out h parsed hp
    simp only [checkFilesLoop, Option.some_inj] at h
    simp only [parseFiles, Option.some_inj] at hp
    subst h; subst hp
    exact ⟨[], by simp, List.nil_sublist []⟩
  | cons r rs ih =>
    intro acc out h parsed hp
    cases hpr : parseFileInfo r with
    | none => simp [checkFilesLoop, hpr] at h
    | some fi =>
      simp only [checkFilesLoop, hpr] at h
      cases hps : parseFiles rs with
      | none => simp [parseFiles, hpr, hps] at hp
      | some ps =>
        have hp2 : parsed = fi :: ps := by
          simp [parseFiles, hpr, hps] at hp
          exact hp.symm
        subst hp2
        by_cases hmem : fi ∈ acc
        · rw [if_pos hmem] at h
          obtain ⟨extra, hout, hsub⟩ := ih acc out h ps hps
          exact ⟨extra, hout, hsub.cons fi⟩
        · rw [if_neg hmem] at h
          obtain ⟨extra, hout, hsub⟩ := ih (acc ++ [fi]) out h ps hps
          exact ⟨fi :: extra, by simpa using hout, hsub.cons₂ fi⟩

/-- C9: when validation completes without full recreation, the kept
records form a sublist of the constructed records in document order — the
dedup pass removes later duplicates but never reorders what it keeps. -/
theorem checkData_preserves_order
    (raws : List RawFile) (out parsed : List FileInfo)
    (hloop : checkFilesLoop raws [] = some out)
    (hparse : parseFiles raws = some parsed) :
    out.Sublist parsed := by
  obtain ⟨extra, hout, hsub⟩ := checkFilesLoop_sublist_aux raws [] out hloop parsed hparse
  simpa [hout] using hsub

theorem checkData_preserves_order_witness :
    checkFilesLoop c9Raws [] = some c9Out ∧
    parseFiles c9Raws = some c9Parsed ∧
    c9Out.Sublist c9Parsed := by
  refine ⟨by decide, by decide, ?_⟩
  exact checkData_preserves_order c9Raws c9Out c9Parsed (by decide) (by decide)

theorem getFI_isSome_eq_any (name : String) (fs : List FileInfo) :
    (getFI name fs).isSome = fs.any (fun x => x.name == name) := by
  induction fs with
  | nil => rfl
  | cons f fs ih =>
    rw [getFI_cons]
    cases hg : getFI name fs with
    | some x =>
      have hA : fs.any (fun x => x.name == name) = true := by rw [← ih, hg]; rfl
      simp [Option.or, hA]
    | none =>
      have hA : fs.any (fun x => x.name == name) = false := by rw [← ih, hg]; rfl
      cases hf : (f.name == name) <;> simp [Option.or, hA, hf]

/-- Behaviour of `updateLast`: when `get` finds a record and the update
function succeeds on it without renaming it, the last matching record is
replaced and lookups under every other name are untouched. -/
theorem updateLast_spec (name : String) (g : FileInfo → Option FileInfo) :
    ∀ (files : List FileInfo) (fi fi2 : FileInfo),
      getFI name files = some fi → g fi = some fi2 → fi2.name = fi.name →
      ∃ files2, updateLast name g files = some files2 ∧
        getFI name files2 = some fi2 ∧
        ∀ m, m ≠ name → getFI m files2 = getFI m files := by
  intro files
  induction files with
  | nil =>
    intro fi fi2 hget _ _
    simp [getFI] at hget
  | cons f fs ih =>
    intro fi fi2 hget hg hn
    by_cases hA : fs.any (fun x => x.name == name) = true
    · obtain ⟨x, hx⟩ : ∃ x, getFI name fs = some x := by
        cases hgn : getFI name fs with
        | some y => exact ⟨y, rfl⟩
        | none =>
          have hiso := getFI_isSome_eq_any name fs
          rw [hgn, hA] at hiso
          simp at hiso
      have hfi : x = fi := by
        rw [getFI_cons, hx] at hget
        simpa [Option.or] using hget
      subst hfi
      obtain ⟨fs2, h1, h2, h3⟩ := ih x fi2 hx hg hn
      refine ⟨f :: fs2, ?_, ?_, ?_⟩
      · simp [updateLast, hA, h1]
      · rw [getFI_cons, h2]; rfl
      · intro m hm
        rw [getFI_cons, getFI_cons, h3 m hm]
    · have hA2 : fs.any (fun x => x.name == name) = false := by
        cases h2 : fs.any (fun x => x.name == name)
        · rfl
        · exact absurd h2 hA
      have hnone : getFI name fs = none := by
        cases hgn : getFI name fs with
        | none => rfl
        | some y =>
          have hiso := getFI_isSome_eq_any name fs
          rw [hgn, hA2] at hiso
          simp at hiso
      rw [getFI_cons, hnone] at hget
      cases hf : (f.name == name) with
      | false => rw [hf] at hget; simp [Option.or] at hget
      | true =>
        rw [hf] at hget
        have hfeq : f = fi := by simpa [Option.or] using hget
        subst hfeq
        have hf2 : (fi2.name == name) = true := by rw [hn]; exact hf
        refine ⟨fi2 :: fs, ?_, ?_, ?_⟩
        · simp [updateLast, hA2, hf, hg]
        · rw [getFI_cons, hnone]
          simp [Option.or, hf2]
        · intro m hm
          have hfm : (f.name == m) = false := by
            have heq : f.name = name := by simpa using hf
            rw [heq]
            exact beq_eq_false_iff_ne.mpr (Ne.symm hm)
          have hfim : (fi2.name == m) = false := by rw [hn]; exact hfm
          rw [getFI_cons, getFI_cons, hfm, hfim]
          simp

theorem mapKeys_spec :
    ∀ (l : List ImageInfo) (keyed : List (Nat × ImageInfo)), mapKeys l = some keyed →
      keyed.map Prod.snd = l ∧ ∀ p ∈ keyed, pageSearch p.2.name.data = some p.1 := by
  intro l
  induction l with
  | nil =>
    intro keyed h
    simp only [mapKeys, Option.some_inj] at h
    subst h
    simp
  | cons x xs ih =>
    intro keyed h
    cases hp : pageSearch x.name.data with
    | none => simp [mapKeys, hp] at h
    | some p =>
      simp only [mapKeys, hp] at h
      cases hm : mapKeys xs with
      | none => rw [hm] at h; simp at h
      | some ks =>
        rw [hm] at h
        have hk : keyed = (p, x) :: ks := by simpa using h.symm
        subst hk
        obtain ⟨h1, h2⟩ := ih ks hm
        constructor
        · simp [h1]
        · intro q hq
          rcases List.mem_cons.mp hq with hq1 | hq2
          · subst hq1; exact hp
          · exact h2 q hq2

/-- C5: `add_image_info` on a record with a non-null image sequence
removes the structurally equal duplicate, appends the new record, and
sorts by parsed page number: whenever the update succeeds, the resulting
sequence is a permutation of `(images with the first structural duplicate
removed) ++ [new]` whose page keys all parse and are ascending; and on
the concrete scenario the two images end up in page order, with a
repeated `addImage` of an identical record leaving exactly one
occurrence. -/
theorem addImage_dedup_sort_spec :
    (∀ (l : List ImageInfo) (im : ImageInfo) (out : List ImageInfo),
        imagesAfterAdd l im = some out →
        out.Perm (l.erase im ++ [im]) ∧
        ∃ ks : List Nat,
          out.map (fun x => pageSearch x.name.data) = ks.map some ∧
          ks.Sorted (· ≤ ·)) ∧
    runGetCh1 c5Ops = some c5File ∧
    runGetCh1 (c5Ops ++ [.addImage "Ch.1" "1.png" "h1" "abc"]) = some c5File ∧
    (c5File.images.getD []).count ⟨"1.png", "h1", "abc"⟩ = 1 := by
  refine ⟨?_, by decide, by decide, by decide⟩
  intro l im out h
  unfold imagesAfterAdd at h
  cases hm : mapKeys (l.erase im ++ [im]) with
  | none => rw [hm] at h; simp at h
  | some keyed =>
    rw [hm] at h
    have hout : out = (List.insertionSort pageOrder keyed).map Prod.snd := by
      simpa using h.symm
    obtain ⟨hmap, hmem⟩ := mapKeys_spec _ keyed hm
    constructor
    · rw [hout, ← hmap]
      exact (List.perm_insertionSort pageOrder keyed).map Prod.snd
    · refine ⟨(List.insertionSort pageOrder keyed).map Prod.fst, ?_, ?_⟩
      · rw [hout, List.map_map, List.map_map]
        apply List.map_congr_left
        intro p hp
        have hpk : p ∈ keyed := (List.perm_insertionSort pageOrder keyed).subset hp
        simpa [Function.comp] using hmem p hpk
      · have hs := List.sorted_insertionSort pageOrder keyed
        exact List.Pairwise.map Prod.fst (fun a b hab => hab) hs

theorem addImage_dedup_sort_spec_witness :
    imagesAfterAdd c5L c5Im = some c5Out ∧
    c5Out.Perm (c5L.erase c5Im ++ [c5Im]) := by
  refine ⟨by decide, ?_⟩
  exact (addImage_dedup_sort_spec.1 c5L c5Im c5Out (by decide)).1

/-- C7: `add_chapter_info` is a no-op — the whole files sequence is
returned unchanged, so in particular the chapters sequence keeps its
length and entries, and repeating the call changes nothing — when the
chapter id is already present (membership is `_ChapterInfo.__eq__`
against the bare id string, i.e. comparison by `id`); when absent, the
record `{chapter_name, chapter_id}` is appended to the chapters of the
looked-up record and no other name's lookup changes. -/
theorem addChapter_noop_or_append (files : List FileInfo) (n cn cid : String)
    (fi : FileInfo) (chs : List ChapterInfo)
    (hget : getFI n files = some fi) (hch : fi.chapters = some chs) :
    (chs.any (fun c => c.id == cid) = true →
      addChapterList n cn cid files = some files) ∧
    (chs.any (fun c => c.id == cid) = false →
      ∃ files2, addChapterList n cn cid files = some files2 ∧
        getFI n files2 = some { fi with chapters := some (chs ++ [ChapterInfo.mk cn cid]) } ∧
        ∀ m, m ≠ n → getFI m files2 = getFI m files) := by
  constructor
  · intro hc
    simp only [addChapterList, hget, Option.some_bind, hch]
    rw [if_pos hc]
  · intro hc
    have hg : appendChapter cn cid fi =
        some { fi with chapters := some (chs ++ [ChapterInfo.mk cn cid]) } := by
      simp [appendChapter, hch]
    obtain ⟨files2, h1, h2, h3⟩ := updateLast_spec n _ files fi _ hget hg rfl
    refine ⟨files2, ?_, h2, h3⟩
    simp only [addChapterList, hget, Option.some_bind, hch]
    rw [if_neg (by simp [hc])]
    exact h1

theorem addChapter_noop_or_append_witness :
    getFI "Vol. 1" c7Files = some c7Fi ∧
    addChapterList "Vol. 1" "Ch. 1" "id1" c7Files = some c7Files := by
  refine ⟨by decide, ?_⟩
  exact (addChapter_noop_or_append c7Files "Vol. 1" "Ch. 1" "id1" c7Fi
    [⟨"Ch. 1", "id1"⟩] (by decide) (by decide)).1 (by decide)

/-- A single operation in disabled mode issues no file-system effect,
keeps the worker stopped, and keeps the tracker disabled. -/
theorem exec_disabled_frame (op : Op) (s s2 : TrackerState)
    (hd : s.disabled = true) (h : exec op s = some s2) :
    s2.disabled = true ∧ s2.fsEvents = s.fsEvents ∧
      s2.workerStarted = s.workerStarted := by
  have hw : scheduleWrite s = s.fsEvents := by simp [scheduleWrite, hd]
  cases op with
  | addFile n i hh ni nc =>
    cases hm : memFiles s.mem with
    | none => simp [exec, hm] at h
    | some files =>
      simp only [exec, hm, Option.map_some'] at h
      cases h
      exact ⟨hd, hw, rfl⟩
  | addImage n imn hh cid =>
    cases hm : memFiles s.mem with
    | none => simp [exec, hm] at h
    | some files =>
      simp only [exec, hm, Option.some_bind] at h
      cases ha : addImageList n imn hh cid files with
      | none => rw [ha] at h; simp at h
      | some files2 =>
        rw [ha] at h
        simp only [Option.map_some'] at h
        cases h
        exact ⟨hd, hw, rfl⟩
  | addChapter n cn cid =>
    cases hm : memFiles s.mem with
    | none => simp [exec, hm] at h
    | some files =>
      simp only [exec, hm, Option.some_bind] at h
      cases hg : getFI n files with
      | none => rw [hg] at h; simp at h
      | some fi =>
        rw [hg] at h
        simp only [Option.some_bind] at h
        cases hc : fi.chapters with
        | none => rw [hc] at h; simp at h
        | some chs =>
          rw [hc] at h
          simp only [Option.some_bind] at h
          by_cases hany : chs.any (fun c => c.id == cid) = true
          · rw [if_pos hany] at h
            cases h
            exact ⟨hd, rfl, rfl⟩
          · rw [if_neg hany] at h
            cases hu : updateLast n (appendChapter cn cid) files with
            | none => rw [hu] at h; simp at h
            | some files2 =>
              rw [hu] at h
              simp only [Option.map_some'] at h
              cases h
              exact ⟨hd, hw, rfl⟩
  | setCompleted n b =>
    cases hm : memFiles s.mem with
    | none => simp [exec, hm] at h
    | some files =>
      simp only [exec, hm, Option.some_bind] at h
      cases hu : updateLast n (fun f => some { f with completed := b }) files with
      | none => rw [hu] at h; simp at h
      | some files2 =>
        rw [hu] at h
        simp only [Option.map_some'] at h
        cases h
        exact ⟨hd, hw, rfl⟩
  | recreate =>
    simp only [exec, hd, if_true] at h
    cases h
    exact ⟨hd, rfl, rfl⟩
  | shutdown =>
    simp only [exec, hd, if_true] at h
    cases h
    exact ⟨hd, rfl, rfl⟩

theorem execAll_disabled_frame :
    ∀ (ops : List Op) (s s2 : TrackerState), s.disabled = true →
      execAll ops s = some s2 →
      s2.disabled = true ∧ s2.fsEvents = s.fsEvents ∧
        s2.workerStarted = s.workerStarted := by
  intro ops
  induction ops with
  | nil =>
    intro s s2 hd h
    simp only [execAll, Option.some_inj] at h
    subst h
    exact ⟨hd, rfl, rfl⟩
  | cons op ops ih =>
    intro s s2 hd h
    simp only [execAll] at h
    cases he : exec op s with
    | none => rw [he] at h; simp at h
    | some s1 =>
      rw [he] at h
      obtain ⟨h1, h2, h3⟩ := exec_disabled_frame op s s1 hd he
      obtain ⟨g1, g2, g3⟩ := ih s1 s2 h1 h
      exact ⟨g1, g2.trans h2, g3.trans h3⟩

/-- C8: from a tracker constructed with tracking disabled, no sequence of
ledger operations ever issues a file-system effect or starts the queue
worker, and `get`/`empty` on the freshly constructed tracker agree with
an enabled tracker loaded over an empty ledger (missing backing file). -/
theorem disabled_mode_no_io_no_worker (disk : DiskContent) (ops : List Op)
    (s2 : TrackerState) (h : execAll ops (initTracker true disk) = some s2) :
    s2.fsEvents = [] ∧ s2.workerStarted = false ∧
    (∀ n, trackerGet (initTracker true disk) n =
      trackerGet (initTracker false .absent) n) ∧
    trackerEmpty (initTracker true disk) = trackerEmpty (initTracker false .absent) := by
  obtain ⟨_, h2, h3⟩ := execAll_disabled_frame ops _ s2 rfl h
  exact ⟨h2, h3, fun n => rfl, rfl⟩

theorem disabled_mode_no_io_no_worker_witness :
    execAll c8Ops (initTracker true .absent) = some c8Final ∧
    c8Final.fsEvents = [] ∧ c8Final.workerStarted = false ∧
    trackerGet (initTracker true .absent) "A" =
      trackerGet (initTracker false .absent) "A" := by
  refine ⟨by decide, ?_, ?_, ?_⟩
  · exact (disabled_mode_no_io_no_worker .absent c8Ops c8Final (by decide)).1
  · exact (disabled_mode_no_io_no_worker .absent c8Ops c8Final (by decide)).2.1
  · exact (disabled_mode_no_io_no_worker .absent c8Ops c8Final (by decide)).2.2.1 "A"

/-- C10: with tracking disabled, `recreate()` returns before touching
anything — the whole tracker state, in particular the in-memory files
sequence, is unchanged, so records added before the call are still
returned by `get` afterwards. -/
theorem recreate_disabled_noop (s : TrackerState) (hd : s.disabled = true) :
    exec Op.recreate s = some s := by
  simp [exec, hd]

theorem recreate_disabled_noop_witness :
    c10State.disabled = true ∧
    exec Op.recreate c10State = some c10State ∧
    trackerGet c10State "A" = some (some ⟨"A", some "id1", none, false, none, none⟩) := by
  exact ⟨rfl, recreate_disabled_noop c10State rfl, by decide⟩

theorem get_returns_last_match_witness :
    getFI "A" [⟨"A", some "1", none, false, none, none⟩,
               ⟨"B", none, none, false, none, none⟩,
               ⟨"A", some "2", none, true, none, none⟩] =
      ([⟨"A", some "1", none, false, none, none⟩,
        ⟨"B", none, none, false, none, none⟩,
        ⟨"A", some "2", none, true, none, none⟩] :
          List FileInfo).reverse.find? (fun fi => fi.name == "A") :=
  (get_returns_last_match "A"
    [⟨"A", some "1", none, false, none, none⟩,
     ⟨"B", none, none, false, none, none⟩,
     ⟨"A", some "2", none, true, none, none⟩]).1
